import Mathlib

/-!
Verification of the feed-to-channel pipeline of the irc-rss-feed-bot
repository, against its natural-language specification.

The Python source under `ircrssfeedbot/` is shallowly embedded: strings
are `List Char`, machine floats used only as monotonic-time values are
modelled as `ℚ`, dictionaries as association lists, and the durable
deduplication store as a list of `(channel, feed, url)` triples.  Each
definition carries a note pointing at the source function it embeds.
-/

/-! ## Python string primitives used by `feed.py` -/

/-- The whitespace characters stripped by Python `str.rstrip()`
(ASCII whitespace; titles in the pipeline are ordinary text). -/
def pyIsSpace (c : Char) : Bool :=
  c = ' ' || c = '\t' || c = '\n' || c = '\x0d' || c = '\x0b' || c = '\x0c'

/-- Python `s.rstrip()`: drop trailing whitespace. -/
def pyRstrip (s : List Char) : List Char :=
  (s.reverse.dropWhile pyIsSpace).reverse

/-- Python `s.rstrip(".")`: drop trailing period characters. -/
def pyRstripDot (s : List Char) : List Char :=
  (s.reverse.dropWhile (fun c => c = '.')).reverse

/-- Helper for Python `s.split(sep, maxsplit=1)`: locate the first
occurrence of `sep` in `s`, returning the part before it and the part
after it, or `none` when `sep` does not occur. -/
def splitOnceAux (sep : List Char) : List Char → Option (List Char × List Char)
  | [] => none
  | c :: cs =>
    if sep.isPrefixOf (c :: cs) then some ([], (c :: cs).drop sep.length)
    else
      match splitOnceAux sep cs with
      | none => none
      | some (pre, post) => some (c :: pre, post)

/-- Python `s.split(sep, maxsplit=1)` for a non-empty separator. -/
def pySplitOnce (sep s : List Char) : List (List Char) :=
  match splitOnceAux sep s with
  | none => [s]
  | some (pre, post) => [pre, post]

/-- Python `sep in s` (substring containment, non-empty `sep`). -/
def containsSeq (sep : List Char) : List Char → Bool
  | [] => sep.isEmpty
  | c :: cs => sep.isPrefixOf (c :: cs) || containsSeq sep cs

/-! ## Title pipeline stages (`feed.py`, `Feed._process_entries`)

Only the two stages named by the claims are embedded; each acts on one
title, as the source's per-entry loop body does. -/

/-- U+201C, the opening smart quote (`quote_begin` in `feed.py`). -/
def quoteBegin : Char := '“'

/-- U+201D, the closing smart quote (`quote_end` in `feed.py`). -/
def quoteEnd : Char := '”'

/-- The smart-quote stage of `Feed._process_entries`:
`if (len(title) > 2) and (title[0] == quote_begin) and (title[-1] == quote_end)`
then let `t = title[1:-1]`; if neither quote occurs in `t`, the title
becomes `t`; otherwise it is unchanged. -/
def stripSmartQuotesStage (title : List Char) : List Char :=
  if title.length > 2 ∧ title.head? = some quoteBegin ∧ title.getLast? = some quoteEnd then
    if ¬ ((title.drop 1).dropLast).contains quoteBegin ∧
        ¬ ((title.drop 1).dropLast).contains quoteEnd then
      (title.drop 1).dropLast
    else title
  else title

/-- The separator `". "` used by the crude sentence-break test. -/
def dotSpace : List Char := ['.', ' ']

/-- The trailing-period stage of `Feed._process_entries`:
`if len(entry.title.rstrip().split(". ", maxsplit=1)) < 2:`
`    entry.title = entry.title.rstrip().rstrip(".")`. -/
def stripTrailingPeriodStage (title : List Char) : List Char :=
  if (pySplitOnce dotSpace (pyRstrip title)).length < 2 then
    pyRstripDot (pyRstrip title)
  else title

/-! ## DedupStore

`db.py` is not part of the provided sources; only its callers are.
Modelled from the spec (section 4.1): a persistent ordered set of
`(channel, feed, long_url)` triples with batch query and batch insert. -/

/-- Modelled from the spec: the DedupStore (`Database` of `db.py`, absent
from the sources), a durable ordered set of `(channel, feed, url)` rows. -/
structure DB where
  rows : List (String × String × String)
deriving DecidableEq

/-- Modelled from the spec: `is_new_feed(channel, feed)` — true iff no row
exists for `(channel, feed)`. -/
def DB.is_new_feed (db : DB) (channel feed : String) : Bool :=
  decide (∀ r ∈ db.rows, ¬ (r.1 = channel ∧ r.2.1 = feed))

/-- Modelled from the spec: `select_unposted_for_channel_feed` — the subset
of `urls` for which `(channel, feed, url)` is absent. -/
def DB.select_unposted_for_channel_feed (db : DB) (channel feed : String)
    (urls : List String) : List String :=
  urls.filter fun u => decide ((channel, feed, u) ∉ db.rows)

/-- Modelled from the spec: `select_unposted_for_channel` — the subset of
`urls` for which no row exists with the given `channel` and any feed. -/
def DB.select_unposted_for_channel (db : DB) (channel _feed : String)
    (urls : List String) : List String :=
  urls.filter fun u => decide (∀ r ∈ db.rows, ¬ (r.1 = channel ∧ r.2.2 = u))

/-- Modelled from the spec: `insert_posted(channel, feed, urls)` — records
all triples; idempotent on replay. -/
def DB.insert_posted (db : DB) (channel feed : String) (urls : List String) : DB :=
  urls.foldl
    (fun d u => if (channel, feed, u) ∈ d.rows then d else ⟨d.rows ++ [(channel, feed, u)]⟩)
    db

/-! ## Data model: entries, per-feed configuration, global configuration -/

/-- A feed entry.  `entry.py` is absent from the sources; modelled from the
spec (section 3): `{title, long_url, summary, categories}` with an optional
`short_url` populated only when shortening is enabled. -/
structure FeedEntry where
  title : List Char
  long_url : String
  summary : List Char := []
  categories : List String := []
  short_url : Option String := none
deriving DecidableEq

/-- Modelled from the spec: `entry.post_url` (used by `Bot._msg_channel`) —
"`url = short_url` if shortening enabled else `long_url`"; the populated
`short_url` when present, else `long_url`. -/
def FeedEntry.post_url (e : FeedEntry) : String :=
  e.short_url.getD e.long_url

/-- Dedup scope of a feed: `"feed"` or `"channel"` (`config["dedup"]`). -/
inductive DedupStrategy where
  | feed
  | channel
deriving DecidableEq

/-- The per-feed configuration keys consulted by the embedded code paths
(`self.config` in `feed.py`, merged from defaults and per-feed settings).
`alerts` models `config.get("alerts", {}).get("empty", True)`: the outer
`Option` is the presence of the `alerts` mapping, the inner one the
presence of its `empty` key. -/
structure FeedConfig where
  new : String
  shorten : Bool
  dedup : Option DedupStrategy := none
  period : Option ℚ := none
  alerts : Option (Option Bool) := none

/-- Global configuration constants.  `config.py` is absent from the
sources; modelled from the spec (section 6), which names the constants
without fixing values, so they are abstract fields.
`MIN_CHANNEL_IDLE_TIME` is referenced by `bot.py` (line 67) though the
spec's constant list has only `MIN_CHANNEL_IDLE_TIME_DEFAULT`.
`messageFormat` models rendering `MESSAGE_FORMAT` with
`{feed, title, url}`. -/
structure GlobalConfig where
  NEW_FEED_POSTS_MAX : String → Nat
  DEDUP_STRATEGY_DEFAULT : DedupStrategy := .feed
  MIN_CHANNEL_IDLE_TIME : ℚ
  MIN_CHANNEL_IDLE_TIME_DEFAULT : ℚ
  PERIOD_HOURS_MIN : ℚ
  PERIOD_HOURS_DEFAULT : ℚ
  messageFormat : String → List Char → String → List Char

/-- A `Feed` object as handed to the ChannelPoster: channel, name, merged
config, and pipeline-processed entries (`feed.py`, dataclass `Feed`). -/
structure Feed where
  channel : String
  name : String
  config : FeedConfig
  entries : List FeedEntry

/-- `Feed.__post_init__` (`feed.py` lines 52-56):
`min_channel_idle_time = MIN_CHANNEL_IDLE_TIME_DEFAULT if`
`config.get("period", PERIOD_HOURS_DEFAULT) > PERIOD_HOURS_MIN else 0`. -/
def Feed.min_channel_idle_time (g : GlobalConfig) (f : Feed) : ℚ :=
  if f.config.period.getD g.PERIOD_HOURS_DEFAULT > g.PERIOD_HOURS_MIN then
    g.MIN_CHANNEL_IDLE_TIME_DEFAULT
  else 0

/-- `Feed.unposted_entries` (`feed.py` lines 324-339): keep the entries
whose `long_url` the DedupStore reports as unposted under the configured
dedup scope (`config.get("dedup") or DEDUP_STRATEGY_DEFAULT`). -/
def Feed.unposted_entries (g : GlobalConfig) (db : DB) (f : Feed) : List FeedEntry :=
  let long_urls := f.entries.map (·.long_url)
  let strat := f.config.dedup.getD g.DEDUP_STRATEGY_DEFAULT
  let long_urls :=
    match strat with
    | .channel => db.select_unposted_for_channel f.channel f.name long_urls
    | .feed => db.select_unposted_for_channel_feed f.channel f.name long_urls
  f.entries.filter fun e => decide (e.long_url ∈ long_urls)

/-- `Feed.postable_entries` (`feed.py` lines 293-322): start from
`unposted_entries`; if `db.is_new_feed(channel, name)`, truncate to
`NEW_FEED_POSTS_MAX[config["new"]]`; if the result is non-empty and
`config["shorten"]`, set each entry's `short_url` to the same-index
element of `shorten_urls` applied to their `long_url`s. -/
def Feed.postable_entries (g : GlobalConfig) (db : DB)
    (shorten_urls : List String → List String) (f : Feed) : List FeedEntry :=
  let entries := f.unposted_entries g db
  let entries :=
    if db.is_new_feed f.channel f.name then
      entries.take (g.NEW_FEED_POSTS_MAX f.config.new)
    else entries
  if entries ≠ [] ∧ f.config.shorten then
    entries.mapIdx fun i e =>
      { e with short_url := (shorten_urls (entries.map (·.long_url)))[i]? }
  else entries

/-- An entry with its `short_url` field cleared; used to compare entry
lists up to the `short_url` population step. -/
def FeedEntry.clearShort (e : FeedEntry) : FeedEntry :=
  { e with short_url := none }

/-- Following the spec's words (section 4.3.2): `unposted_entries`,
truncated to `NEW_FEED_POSTS_MAX[config.new]` exactly when the feed is
new, and unchanged otherwise. -/
def specTruncatedUnposted (g : GlobalConfig) (db : DB) (f : Feed) : List FeedEntry :=
  if db.is_new_feed f.channel f.name then
    (f.unposted_entries g db).take (g.NEW_FEED_POSTS_MAX f.config.new)
  else f.unposted_entries g db

/-! ## ChannelPoster (`bot.py`, `Bot._msg_channel`) -/

/-- The idle-gate sleep computed by `Bot._msg_channel` (lines 67, 82-84):
`min_channel_idle_time = config.MIN_CHANNEL_IDLE_TIME` is captured once,
before the loop, from the global configuration module, and
`sleep_time = max(0, min_channel_idle_time - time_elapsed_since_last_ic_msg)`. -/
def Bot.idleGateSleep (g : GlobalConfig) (elapsed : ℚ) : ℚ :=
  max 0 (g.MIN_CHANNEL_IDLE_TIME - elapsed)

/-- Result of `Bot._msg_channel` processing one dequeued feed: the
messages actually sent, the url list passed to `insert_posted` (empty when
the call was not made), the DedupStore afterwards, and whether the
iteration's `try` block raised. -/
structure FeedRun where
  sent : List (List Char)
  insertedUrls : List String
  db : DB
  raised : Bool
deriving DecidableEq

/-- The exception-free tail of a `Bot._msg_channel` iteration
(`bot.py` lines 111-115): all `msgs` were sent, and
`db.insert_posted(channel, feed.name, [e.long_url for e in feed.unposted_entries])`
runs exactly when `feed.unposted_entries` is non-empty. -/
def Bot.msgChannelCommit (g : GlobalConfig) (db : DB) (f : Feed)
    (msgs : List (List Char)) : FeedRun :=
  if f.unposted_entries g db ≠ [] then
    { sent := msgs,
      insertedUrls := (f.unposted_entries g db).map (·.long_url),
      db := db.insert_posted f.channel f.name ((f.unposted_entries g db).map (·.long_url)),
      raised := false }
  else
    { sent := msgs, insertedUrls := [], db := db, raised := false }

/-- One iteration of the `while True` loop of `Bot._msg_channel`
(`bot.py` lines 72-119) for a dequeued `feed`, with locking and real time
elided (they are modelled separately by the trace model below).
`sendFail` injects the send-failure fault: `some k` means the `irc.msg`
call for the `k`-th postable entry raises (provided `k` is in range, else
every send succeeds).  Faithfully to the source: messages are rendered and
sent for `feed.postable_entries` in order; on an exception the `except`
clause is reached and `insert_posted` is skipped; otherwise the iteration
finishes with `Bot.msgChannelCommit`. -/
def Bot.msgChannelStep (g : GlobalConfig) (db : DB)
    (shorten_urls : List String → List String) (f : Feed)
    (sendFail : Option Nat) : FeedRun :=
  let postable := f.postable_entries g db shorten_urls
  let msgs := postable.map fun e => g.messageFormat f.name e.title e.post_url
  match sendFail with
  | some k =>
    if k < postable.length then
      { sent := msgs.take k, insertedUrls := [], db := db, raised := true }
    else Bot.msgChannelCommit g db f msgs
  | none => Bot.msgChannelCommit g db f msgs

/-! ## FeedReader read loop (`feed.py`, `Feed._read_entries`) -/

/-- Per-URL logging outcome of `Feed._read_entries` (lines 130-141):
entries found → debug log; none found → alert when
`config.get("alerts", {}).get("empty", True)`, else a warning. -/
inductive UrlReadOutcome where
  | logged
  | alerted
  | warned
deriving DecidableEq

/-- The effective `alerts.empty` setting:
`feed_config.get("alerts", {}).get("empty", True)`. -/
def emptyAlertSetting (alerts : Option (Option Bool)) : Bool :=
  (alerts.getD none).getD true

/-- The branch of `Feed._read_entries` run after parsing one URL. -/
def urlOutcome (alerts : Option (Option Bool)) (numEntries : Nat) : UrlReadOutcome :=
  if numEntries ≠ 0 then .logged
  else if emptyAlertSetting alerts then .alerted
  else .warned

/-- `OrderedSet.add`: append if absent. -/
def osAdd (s : List String) (u : String) : List String :=
  if u ∈ s then s else s ++ [u]

/-- `OrderedSet.update`: add each element in order, skipping members. -/
def osUpdate (s : List String) (us : List String) : List String :=
  us.foldl osAdd s

/-- The `while urls_pending` loop of `Feed._read_entries` (lines 110-151):
pop the oldest pending URL, parse it (`parse u` gives its entries and
follow URLs), record the outcome branch, add unread follow URLs to the
pending set, and continue with the remaining URLs.  The source loop has no
fuel; `fuel` makes the recursion structural and any execution that reads
finitely many URLs is reproduced with enough of it.  Returns the collected
entries, the per-URL outcomes in read order, and the URLs read. -/
def readEntriesLoop (parse : String → List FeedEntry × List String)
    (alerts : Option (Option Bool)) :
    Nat → List String → List String → List FeedEntry × List UrlReadOutcome × List String
  | 0, _, urls_read => ([], [], urls_read)
  | _ + 1, [], urls_read => ([], [], urls_read)
  | fuel + 1, u :: rest, urls_read =>
    let es := (parse u).1
    let follows := (parse u).2
    let readNext := osAdd urls_read u
    let pendingNext := osUpdate rest (follows.filter fun v => decide (v ∉ readNext))
    let r := readEntriesLoop parse alerts fuel pendingNext readNext
    (es ++ r.1, urlOutcome alerts es.length :: r.2.1, r.2.2)

/-! ## JOIN handler (`bot.py`, `_handle_join`) and orchestrator maps -/

/-- ASCII case folding.  Modelled from the spec: channel names are compared
case-insensitively via `casefold`; for the ASCII channel strings involved
this is lowercasing. -/
def asciiLower (c : Char) : Char :=
  if 'A' ≤ c ∧ c ≤ 'Z' then Char.ofNat (c.toNat + 32) else c

/-- Python `s.casefold()` on ASCII strings. -/
def pyCasefold (s : String) : String :=
  ⟨s.data.map asciiLower⟩

/-- The configured instance data consulted by `_handle_join`: the nick and
the channel keys of `instance["feeds"]`. -/
structure InstanceConfig where
  nick : String
  channels : List String

/-- Modelled from the spec: `config.INSTANCE["channels:casefold"]` (built
by the absent `config.py`) — the casefolded configured channel names. -/
def InstanceConfig.channelsCasefold (ic : InstanceConfig) : List String :=
  ic.channels.map pyCasefold

/-- Dictionary lookup, `d[k]`; `none` models a raised `KeyError`. -/
def lookupAssoc {β : Type} (m : List (String × β)) (k : String) : Option β :=
  (m.find? fun p => p.1 = k).map (·.2)

/-- Dictionary assignment `d[k] = v` (inserts or overwrites). -/
def setAssoc {β : Type} (m : List (String × β)) (k : String) (v : β) : List (String × β) :=
  if m.any fun p => p.1 = k then m.map fun p => if p.1 = k then (k, v) else p
  else m ++ [(k, v)]

/-- The orchestrator maps touched by `_handle_join`:
`Bot.CHANNEL_JOIN_EVENTS` (an `Event` per configured channel; `Bool` is
its set/unset state) and `Bot.CHANNEL_LAST_INCOMING_MSG_TIMES`. -/
structure OrchestratorState where
  joinEvents : List (String × Bool)
  lastTimes : List (String × ℚ)
deriving DecidableEq

/-- The maps as built by `Bot._setup_channels` (`bot.py` lines 183-210):
one unset join event per configured channel key; no last-message times. -/
def initialOrchestratorState (ic : InstanceConfig) : OrchestratorState :=
  { joinEvents := ic.channels.map fun c => (c, false), lastTimes := [] }

/-- `_handle_join` (`bot.py` lines 215-230): return unchanged unless
`user == nick` and `channel.casefold()` is a configured casefolded
channel; then `Bot.CHANNEL_JOIN_EVENTS[channel].set()` — a lookup by the
raw channel string, `none` modelling its `KeyError` — followed by
`Bot.CHANNEL_LAST_INCOMING_MSG_TIMES[channel] = time.monotonic()`. -/
def handleJoin (ic : InstanceConfig) (st : OrchestratorState)
    (user channel : String) (now : ℚ) : Option OrchestratorState :=
  if user ≠ ic.nick ∨ pyCasefold channel ∉ ic.channelsCasefold then some st
  else
    match lookupAssoc st.joinEvents channel with
    | none => none
    | some _ =>
      some { joinEvents := setAssoc st.joinEvents channel true,
             lastTimes := setAssoc st.lastTimes channel now }

/-! ## `Int8Hash` (`util/hashlib.py`) -/

/-- Python `int.from_bytes(bs, byteorder="big", signed=True)` for a list
of byte values. -/
def intFromBytesBE (bs : List Nat) : Int :=
  if bs.foldl (fun a b => a * 256 + b) 0 < 2 ^ (8 * bs.length - 1) then
    (bs.foldl (fun a b => a * 256 + b) 0 : Nat)
  else
    ((bs.foldl (fun a b => a * 256 + b) 0 : Nat) : Int) - (2 ^ (8 * bs.length) : Nat)

/-- `Int8Hash.BYTES`. -/
def Int8Hash.BYTES : Nat := 8

/-- `Int8Hash.MIN = -(2 ** 63)`. -/
def Int8Hash.MIN : Int := -(2 ^ 63)

/-- `Int8Hash.MAX = 2 ** 63 - 1`. -/
def Int8Hash.MAX : Int := 2 ^ 63 - 1

/-- `Int8Hash.as_int` (`util/hashlib.py` lines 19-25), parameterized by
the shake-128 extendable-output function of Python's `hashlib` (external
to this repository): `shake128 seed n` stands for
`hashlib.shake_128(seed).digest(n)`, the first `n` bytes of the digest
stream of `seed`, here the UTF-8 encoding of the hashed text.  The code
takes `digest(BYTES)` and interprets it as a big-endian signed integer. -/
def Int8Hash.as_int (shake128 : List Nat → Nat → List Nat) (seed : List Nat) : Int :=
  intFromBytesBE (shake128 seed Int8Hash.BYTES)

/-! ## Timing trace model for the global rate limit

`Bot._msg_channel` (`bot.py` lines 76-110) sends a feed's batch while
holding `self._outgoing_msg_lock`, the single lock shared by every
channel poster (`bot.py` line 35).  Within the batch, each send records
`outgoing_msg_time = time.monotonic()` just before `irc.msg` and then
sleeps `max(0, outgoing_msg_time + seconds_per_msg - time.monotonic())`
(line 108), so consecutive send times are at least `SECONDS_PER_MESSAGE`
apart and the lock is released (the `finally` on line 110) no earlier
than the last send time plus `SECONDS_PER_MESSAGE`.  Alert messages
(`_alert`, lines 21-23) call `irc.msg` directly, without the lock and
without pacing. -/

/-- One lock-held posting batch: the monotonic times of lock acquisition,
of each `irc.msg` call for the feed's postable entries, and of the lock
release. -/
structure Batch where
  acquire : ℚ
  sendTimes : List ℚ
  release : ℚ

/-- Consecutive elements at least `spm` apart. -/
def GapChain (spm : ℚ) (l : List ℚ) : Prop :=
  List.Chain' (fun a b => a + spm ≤ b) l

/-- The timing facts `bot.py` lines 76-110 guarantee for one batch:
sends are paced by `spm`, happen while the lock is held, and the final
per-send sleep delays the release to at least `spm` after the last
send. -/
def Batch.paced (spm : ℚ) (b : Batch) : Prop :=
  GapChain spm b.sendTimes ∧
  (∀ s ∈ b.sendTimes, b.acquire ≤ s) ∧
  (∀ s, b.sendTimes.getLast? = some s → s + spm ≤ b.release) ∧
  b.acquire ≤ b.release

/-- A process execution, projected to outgoing `irc.msg` calls: the
lock-held posting batches of all channel posters, and the times of the
unpaced `_alert` messages. -/
structure Trace where
  batches : List Batch
  alertTimes : List ℚ

/-- Well-formedness of a trace under the code's timing discipline: each
batch is paced, and the shared `_outgoing_msg_lock` serializes batches —
each batch acquires the lock no earlier than the previous one released
it.  The alert times are unconstrained, as `_alert` bypasses the lock. -/
def Trace.wf (spm : ℚ) (tr : Trace) : Prop :=
  (∀ b ∈ tr.batches, b.paced spm) ∧
  List.Chain' (fun a c => a.release ≤ c.acquire) tr.batches

/-- The times of the entry-posting messages (the `irc.msg` calls of the
`for entry in feed.postable_entries` loop), across all batches. -/
def Trace.postSends (tr : Trace) : List ℚ :=
  (tr.batches.map Batch.sendTimes).flatten

/-- The times of every outgoing message of the process: entry postings
and alerts. -/
def Trace.allSends (tr : Trace) : List ℚ :=
  tr.postSends ++ tr.alertTimes

/-- Number of send times falling in the half-open window `[t, t + spm)`. -/
def windowCount (sends : List ℚ) (t spm : ℚ) : Nat :=
  sends.countP fun s => decide (t ≤ s ∧ s < t + spm)

/-- A concrete well-formed trace with `SECONDS_PER_MESSAGE = 1`: one
batch sending at time `0`, and one alert at time `1/2`. -/
def exTrace : Trace :=
  { batches := [{ acquire := 0, sendTimes := [0], release := 1 }],
    alertTimes := [1/2] }

/-! ## Concrete witness inputs -/

/-- A concrete global configuration for witness evaluations. -/
def cfgW : GlobalConfig :=
  { NEW_FEED_POSTS_MAX := fun _ => 5,
    MIN_CHANNEL_IDLE_TIME := 900,
    MIN_CHANNEL_IDLE_TIME_DEFAULT := 900,
    PERIOD_HOURS_MIN := 1/5,
    PERIOD_HOURS_DEFAULT := 24,
    messageFormat := fun _ t _ => t }

/-- Twelve entries with pairwise distinct URLs. -/
def entriesW : List FeedEntry :=
  ["u01", "u02", "u03", "u04", "u05", "u06", "u07", "u08", "u09", "u10", "u11", "u12"].map
    fun u => { title := ['t'], long_url := u }

/-- A concrete feed with twelve parsed entries, `new="5"`, no
shortening. -/
def feedW : Feed :=
  { channel := "#c", name := "f", config := { new := "5", shorten := false },
    entries := entriesW }

/-- The same feed with shortening enabled. -/
def feedWS : Feed :=
  { feedW with config := { new := "5", shorten := true } }

/-- The same feed with a configured period equal to `PERIOD_HOURS_MIN`. -/
def feedFastW : Feed :=
  { feedW with config := { new := "5", shorten := false, period := some (1/5) } }

/-- An empty DedupStore. -/
def dbW : DB := ⟨[]⟩

/-- A concrete parse function for the read loop: URL `"a"` parses to zero
entries, any other URL to one entry; no follow URLs. -/
def parseW (u : String) : List FeedEntry × List String :=
  if u = "a" then ([], []) else ([{ title := ['x'], long_url := u }], [])

/-- A concrete instance configuration: nick `bot`, one channel `#chan`. -/
def icW : InstanceConfig := { nick := "bot", channels := ["#chan"] }

/-- A concrete stand-in for the shake-128 digest function: `n` bytes of
`0xff`. -/
def shakeW (_seed : List Nat) (n : Nat) : List Nat := List.replicate n 255

/-! ## Theorems -/

/-- `splitOnceAux` finds no occurrence exactly when the separator is not
contained in the string (non-empty separator). -/
lemma splitOnceAux_none_iff (sep : List Char) (hsep : sep ≠ []) :
    ∀ s, splitOnceAux sep s = none ↔ containsSeq sep s = false := by
  intro s
  induction s with
  | nil =>
    simp [splitOnceAux, containsSeq, List.isEmpty_iff, hsep]
  | cons c cs ih =>
    by_cases hp : sep.isPrefixOf (c :: cs)
    · simp [splitOnceAux, containsSeq, hp]
    · simp only [splitOnceAux, containsSeq, hp, Bool.false_or, if_neg hp]
      cases hx : splitOnceAux sep cs with
      | none => simpa [hx] using ih
      | some pr => simpa [hx] using ih

/-- C6: the trailing-period stage leaves the title unchanged when the
right-stripped title contains the substring `". "`, and otherwise replaces
it with the title right-stripped of whitespace and then of trailing
periods. -/
theorem strip_trailing_period_spec (t : List Char) :
    stripTrailingPeriodStage t =
      if containsSeq dotSpace (pyRstrip t) then t else pyRstripDot (pyRstrip t) := by
  have h := splitOnceAux_none_iff dotSpace (by decide) (pyRstrip t)
  unfold stripTrailingPeriodStage pySplitOnce
  cases hx : splitOnceAux dotSpace (pyRstrip t) with
  | none =>
    have hc : containsSeq dotSpace (pyRstrip t) = false := h.mp hx
    simp [hc]
  | some pr =>
    have hc : containsSeq dotSpace (pyRstrip t) = true := by
      cases hcc : containsSeq dotSpace (pyRstrip t) with
      | false => exact absurd (h.mpr hcc) (by simp [hx])
      | true => rfl
    simp [hc]

/-- C7 counterexample: the two-character title consisting only of the
smart-quote pair is left unchanged by the smart-quote stage (the source
requires `len(title) > 2`), so the pair is not dropped as the claim
states. -/
theorem strip_smart_quotes_two_char_kept :
    stripSmartQuotesStage [quoteBegin, quoteEnd] = [quoteBegin, quoteEnd] ∧
    stripSmartQuotesStage [quoteBegin, quoteEnd] ≠ ([] : List Char) := by
  constructor <;> simp [stripSmartQuotesStage]

/-- C7 amended: for a title of length greater than two whose first
character is U+201C and last is U+201D and whose interior contains
neither quote, the smart-quote stage drops the enclosing pair, leaving
the interior. -/
theorem strip_smart_quotes_amended (t : List Char)
    (hlen : t.length > 2)
    (hh : t.head? = some quoteBegin)
    (hl : t.getLast? = some quoteEnd)
    (hb : ((t.drop 1).dropLast).contains quoteBegin = false)
    (he : ((t.drop 1).dropLast).contains quoteEnd = false) :
    stripSmartQuotesStage t = (t.drop 1).dropLast := by
  have hb' : ¬ ((t.drop 1).dropLast).contains quoteBegin = true := by rw [hb]; simp
  have he' : ¬ ((t.drop 1).dropLast).contains quoteEnd = true := by rw [he]; simp
  unfold stripSmartQuotesStage
  rw [if_pos ⟨hlen, hh, hl⟩, if_pos ⟨hb', he'⟩]

/-- C7 amended, concrete run: `“x”` becomes `x`. -/
theorem strip_smart_quotes_amended_witness :
    stripSmartQuotesStage ['“', 'x', '”'] = ['x'] := by
  have h := strip_smart_quotes_amended ['“', 'x', '”']
    (by decide) (by decide) (by decide) (by decide) (by decide)
  exact h.trans rfl

/-- Big-endian accumulation of bytes below 256 stays below the
corresponding power of 256. -/
lemma foldl_bytes_lt (bs : List Nat) :
    ∀ a, (∀ b ∈ bs, b < 256) →
      bs.foldl (fun x y => x * 256 + y) a < (a + 1) * 256 ^ bs.length := by
  induction bs with
  | nil => intro a _; simp
  | cons b bs ih =>
    intro a h
    have hb : b < 256 := h b (by simp)
    have hrest : ∀ x ∈ bs, x < 256 := fun x hx => h x (by simp [hx])
    have h1 := ih (a * 256 + b) hrest
    have hstep : a * 256 + b + 1 ≤ (a + 1) * 256 := by omega
    have h2 : (a * 256 + b + 1) * 256 ^ bs.length ≤ (a + 1) * 256 ^ (bs.length + 1) := by
      calc (a * 256 + b + 1) * 256 ^ bs.length
          ≤ ((a + 1) * 256) * 256 ^ bs.length := Nat.mul_le_mul_right _ hstep
        _ = (a + 1) * 256 ^ (bs.length + 1) := by ring
    simpa [List.length_cons] using lt_of_lt_of_le h1 h2

/-- C10: `Int8Hash.as_int` interprets the 8-byte shake-128 digest of the
encoded text as a big-endian signed integer, and the result always lies
in `[-2^63, 2^63 - 1]`. -/
theorem int8hash_as_int_range (shake : List Nat → Nat → List Nat) (seed : List Nat)
    (hlen : (shake seed Int8Hash.BYTES).length = 8)
    (hbytes : ∀ b ∈ shake seed Int8Hash.BYTES, b < 256) :
    Int8Hash.as_int shake seed = intFromBytesBE (shake seed Int8Hash.BYTES) ∧
    Int8Hash.MIN ≤ Int8Hash.as_int shake seed ∧
    Int8Hash.as_int shake seed ≤ Int8Hash.MAX := by
  have hu : (shake seed Int8Hash.BYTES).foldl (fun a b => a * 256 + b) 0 < 256 ^ 8 := by
    have h := foldl_bytes_lt (shake seed Int8Hash.BYTES) 0 hbytes
    rw [hlen] at h
    simpa using h
  have h2564 : (256 : Nat) ^ 8 = 18446744073709551616 := by norm_num
  rw [h2564] at hu
  have h63 : (2 : Nat) ^ (8 * 8 - 1) = 9223372036854775808 := by norm_num
  have h64 : (2 : Nat) ^ (8 * 8) = 18446744073709551616 := by norm_num
  have hi63 : ((2 : Int) ^ 63) = 9223372036854775808 := by norm_num
  refine ⟨rfl, ?_, ?_⟩ <;>
    · unfold Int8Hash.as_int intFromBytesBE
      simp only [Int8Hash.MIN, Int8Hash.MAX]
      rw [hlen, h63, h64, hi63]
      split <;> omega

/-- C10 at a concrete digest function (eight `0xff` bytes). -/
theorem int8hash_as_int_range_witness :
    Int8Hash.MIN ≤ Int8Hash.as_int shakeW [] ∧ Int8Hash.as_int shakeW [] ≤ Int8Hash.MAX :=
  (int8hash_as_int_range shakeW [] (by decide) (by decide)).2

/-- Clearing `short_url` after setting it is the same as clearing it. -/
lemma clearShort_set (e : FeedEntry) (v : Option String) :
    FeedEntry.clearShort { e with short_url := v } = FeedEntry.clearShort e := rfl

/-- Setting `short_url` is the same as setting it. -/
lemma longUrl_set (e : FeedEntry) (v : Option String) :
    ({ e with short_url := v } : FeedEntry).long_url = e.long_url := rfl

/-- Populating `short_url` positionally does not change the entries up to
`clearShort`. -/
lemma mapIdx_set_short_clear (l : List FeedEntry) :
    ∀ h : Nat → Option String,
      (l.mapIdx fun i e => { e with short_url := h i }).map FeedEntry.clearShort
        = l.map FeedEntry.clearShort := by
  induction l with
  | nil => intro h; simp
  | cons a l ih =>
    intro h
    simp only [List.mapIdx_cons, List.map_cons, clearShort_set]
    rw [ih fun i => h (i + 1)]

/-- Populating `short_url` positionally does not change the `long_url`s. -/
lemma mapIdx_set_short_map_long (l : List FeedEntry) :
    ∀ h : Nat → Option String,
      (l.mapIdx fun i e => { e with short_url := h i }).map (·.long_url)
        = l.map (·.long_url) := by
  induction l with
  | nil => intro h; simp
  | cons a l ih =>
    intro h
    simp only [List.mapIdx_cons, List.map_cons, longUrl_set]
    rw [ih fun i => h (i + 1)]

/-- `postable_entries` equals the spec's truncation of `unposted_entries`
up to the `short_url` population. -/
lemma postable_map_clearShort (g : GlobalConfig) (db : DB)
    (sh : List String → List String) (f : Feed) :
    (f.postable_entries g db sh).map FeedEntry.clearShort
      = (specTruncatedUnposted g db f).map FeedEntry.clearShort := by
  simp only [Feed.postable_entries, specTruncatedUnposted]
  by_cases hc :
      (if db.is_new_feed f.channel f.name = true then
        (f.unposted_entries g db).take (g.NEW_FEED_POSTS_MAX f.config.new)
      else f.unposted_entries g db) ≠ [] ∧ f.config.shorten = true
  · rw [if_pos hc]
    exact mapIdx_set_short_clear _ _
  · rw [if_neg hc]

/-- `postable_entries` has the length of the spec's truncation. -/
lemma postable_length (g : GlobalConfig) (db : DB)
    (sh : List String → List String) (f : Feed) :
    (f.postable_entries g db sh).length = (specTruncatedUnposted g db f).length := by
  have h := congrArg List.length (postable_map_clearShort g db sh f)
  simpa using h

/-- Without shortening, `postable_entries` is exactly the truncation. -/
lemma postable_no_shorten (g : GlobalConfig) (db : DB)
    (sh : List String → List String) (f : Feed) (hs : f.config.shorten = false) :
    f.postable_entries g db sh = specTruncatedUnposted g db f := by
  simp [Feed.postable_entries, specTruncatedUnposted, hs]

/-- With shortening, each postable entry's `short_url` is the same-index
element of the shortener's output on the postable `long_url`s. -/
lemma postable_short_align (g : GlobalConfig) (db : DB)
    (sh : List String → List String) (f : Feed) :
    ∀ (i : Nat) (e : FeedEntry),
      (f.postable_entries g db sh)[i]? = some e → f.config.shorten = true →
      e.short_url = (sh ((f.postable_entries g db sh).map (·.long_url)))[i]? := by
  intro i e hie hs
  simp only [Feed.postable_entries] at hie ⊢
  by_cases hc :
      (if db.is_new_feed f.channel f.name = true then
        (f.unposted_entries g db).take (g.NEW_FEED_POSTS_MAX f.config.new)
      else f.unposted_entries g db) ≠ [] ∧ f.config.shorten = true
  · rw [if_pos hc] at hie ⊢
    rw [mapIdx_set_short_map_long]
    rw [List.getElem?_mapIdx] at hie
    cases hT : (if db.is_new_feed f.channel f.name = true then
        (f.unposted_entries g db).take (g.NEW_FEED_POSTS_MAX f.config.new)
      else f.unposted_entries g db)[i]? with
    | none => rw [hT] at hie; simp at hie
    | some e0 =>
      rw [hT] at hie
      simp only [Option.map_some'] at hie
      cases hie
      rfl
  · rw [if_neg hc] at hie
    have hT0 : (if db.is_new_feed f.channel f.name = true then
        (f.unposted_entries g db).take (g.NEW_FEED_POSTS_MAX f.config.new)
      else f.unposted_entries g db) = [] := by
      by_contra hne
      exact hc ⟨hne, hs⟩
    rw [hT0] at hie
    simp at hie

/-- C5: `postable_entries` equals `unposted_entries` truncated to
`NEW_FEED_POSTS_MAX[config.new]` exactly when the feed is new and equals
`unposted_entries` otherwise (up to `short_url` population, and exactly
when shortening is off); with shortening on, the `short_url` of the i-th
postable entry is the i-th element of the shortener's output for the list
of their `long_url`s. -/
theorem postable_entries_spec (g : GlobalConfig) (db : DB)
    (sh : List String → List String) (f : Feed) :
    (f.postable_entries g db sh).map FeedEntry.clearShort
        = (specTruncatedUnposted g db f).map FeedEntry.clearShort ∧
    (f.config.shorten = false → f.postable_entries g db sh = specTruncatedUnposted g db f) ∧
    (∀ (i : Nat) (e : FeedEntry),
      (f.postable_entries g db sh)[i]? = some e → f.config.shorten = true →
      e.short_url = (sh ((f.postable_entries g db sh).map (·.long_url)))[i]?) :=
  ⟨postable_map_clearShort g db sh f,
   fun hs => postable_no_shorten g db sh f hs,
   postable_short_align g db sh f⟩

/-- C5 at concrete inputs: with the identity shortener on a new feed with
cap 5, the first postable entry's `short_url` is the first shortener
output. -/
theorem postable_entries_spec_witness :
    (⟨['t'], "u01", [], [], some "u01"⟩ : FeedEntry).short_url
      = (((feedWS.postable_entries cfgW dbW fun us => us).map (·.long_url)))[0]? :=
  (postable_entries_spec cfgW dbW (fun us => us) feedWS).2.2 0
    ⟨['t'], "u01", [], [], some "u01"⟩ (by decide) rfl

/-- A new `(channel, feed)` has no DedupStore row with any url. -/
lemma is_new_feed_not_mem (db : DB) (c n : String)
    (h : db.is_new_feed c n = true) : ∀ u, (c, n, u) ∉ db.rows := by
  intro u hm
  rw [DB.is_new_feed, decide_eq_true_eq] at h
  exact h (c, n, u) hm ⟨rfl, rfl⟩

/-- Inserting pairwise-distinct fresh urls grows the DedupStore by one row
per url. -/
lemma insert_posted_fresh_length (c n : String) :
    ∀ (urls : List String) (db : DB), urls.Nodup →
      (∀ u ∈ urls, (c, n, u) ∉ db.rows) →
      (db.insert_posted c n urls).rows.length = db.rows.length + urls.length := by
  intro urls
  induction urls with
  | nil => intro db _ _; simp [DB.insert_posted]
  | cons u us ih =>
    intro db hnd hfresh
    have hu : (c, n, u) ∉ db.rows := hfresh u (by simp)
    have step : db.insert_posted c n (u :: us)
        = (DB.mk (db.rows ++ [(c, n, u)])).insert_posted c n us := by
      simp only [DB.insert_posted, List.foldl_cons, if_neg hu]
    rw [step, ih ⟨db.rows ++ [(c, n, u)]⟩ hnd.of_cons ?fresh]
    · simp only [List.length_append, List.length_cons, List.length_nil]
      omega
    case fresh =>
      intro v hv hmem
      rcases List.mem_append.mp hmem with h1 | h2
      · exact hfresh v (by simp [hv]) h1
      · have hvu : v = u := by
          simp only [List.mem_singleton, Prod.mk.injEq] at h2
          exact h2.2.2
        exact (List.nodup_cons.mp hnd).1 (hvu ▸ hv)

/-- C1: after an error-free batch for a new feed with 12 unposted entries
and a first-post cap of 5, exactly 5 messages are sent while
`insert_posted` receives the `long_url`s of all 12 of
`feed.unposted_entries`, adding 12 DedupStore rows. -/
theorem new_feed_cap_sends_and_inserts (g : GlobalConfig) (db : DB)
    (sh : List String → List String) (f : Feed)
    (hnew : db.is_new_feed f.channel f.name = true)
    (hcap : g.NEW_FEED_POSTS_MAX f.config.new = 5)
    (hlen : (f.unposted_entries g db).length = 12)
    (hnd : ((f.unposted_entries g db).map (·.long_url)).Nodup) :
    (Bot.msgChannelStep g db sh f none).sent.length = 5 ∧
    (Bot.msgChannelStep g db sh f none).insertedUrls
        = (f.unposted_entries g db).map (·.long_url) ∧
    (Bot.msgChannelStep g db sh f none).db.rows.length = db.rows.length + 12 := by
  have hne : f.unposted_entries g db ≠ [] := by
    intro h0
    rw [h0] at hlen
    simp at hlen
  have hcommit : ∀ msgs, Bot.msgChannelCommit g db f msgs
      = { sent := msgs,
          insertedUrls := (f.unposted_entries g db).map (·.long_url),
          db := db.insert_posted f.channel f.name ((f.unposted_entries g db).map (·.long_url)),
          raised := false } := by
    intro msgs
    rw [Bot.msgChannelCommit, if_pos hne]
  have hstep : Bot.msgChannelStep g db sh f none
      = Bot.msgChannelCommit g db f ((f.postable_entries g db sh).map
          fun e => g.messageFormat f.name e.title e.post_url) := rfl
  rw [hstep, hcommit]
  refine ⟨?_, rfl, ?_⟩
  · rw [List.length_map, postable_length g db sh f, specTruncatedUnposted, if_pos hnew,
      List.length_take, hcap, hlen]
    omega
  · rw [insert_posted_fresh_length f.channel f.name _ db hnd
      (fun u _ => is_new_feed_not_mem db f.channel f.name hnew u)]
    rw [List.length_map, hlen]

/-- C1 at concrete inputs: empty store, 12 distinct entries, cap 5. -/
theorem new_feed_cap_sends_and_inserts_witness :
    (Bot.msgChannelStep cfgW dbW (fun us => us) feedW none).sent.length = 5 ∧
    (Bot.msgChannelStep cfgW dbW (fun us => us) feedW none).db.rows.length = 12 := by
  have h := new_feed_cap_sends_and_inserts cfgW dbW (fun us => us) feedW
    (by decide) rfl (by decide) (by decide)
  exact ⟨h.1, h.2.2.trans (by decide)⟩

/-- C3: if sending entry `k` of the batch raises, `insert_posted` is not
called: the DedupStore is unchanged and every entry of the batch is still
unposted afterwards. -/
theorem send_failure_skips_insert (g : GlobalConfig) (db : DB)
    (sh : List String → List String) (f : Feed) (k : Nat)
    (hk : k < (f.postable_entries g db sh).length) :
    (Bot.msgChannelStep g db sh f (some k)).db = db ∧
    (Bot.msgChannelStep g db sh f (some k)).insertedUrls = [] ∧
    (Bot.msgChannelStep g db sh f (some k)).raised = true ∧
    f.unposted_entries g (Bot.msgChannelStep g db sh f (some k)).db
      = f.unposted_entries g db := by
  have hstep : Bot.msgChannelStep g db sh f (some k)
      = { sent := ((f.postable_entries g db sh).map
            fun e => g.messageFormat f.name e.title e.post_url).take k,
          insertedUrls := [], db := db, raised := true } := by
    simp only [Bot.msgChannelStep]
    rw [if_pos hk]
  rw [hstep]
  exact ⟨rfl, rfl, rfl, rfl⟩

/-- C3 at concrete inputs: the first send fails; nothing is recorded. -/
theorem send_failure_skips_insert_witness :
    (Bot.msgChannelStep cfgW dbW (fun us => us) feedW (some 0)).db = dbW ∧
    (Bot.msgChannelStep cfgW dbW (fun us => us) feedW (some 0)).insertedUrls = [] := by
  have h := send_failure_skips_insert cfgW dbW (fun us => us) feedW 0 (by decide)
  exact ⟨h.1, h.2.1⟩

/-- C2 (the claim is right, the code diverges): `Feed.__post_init__` does
set `min_channel_idle_time` to `0` when the configured period is not
greater than `PERIOD_HOURS_MIN` (and to `MIN_CHANNEL_IDLE_TIME_DEFAULT`
otherwise), but `Bot._msg_channel` computes the idle-gate sleep from the
global constant `config.MIN_CHANNEL_IDLE_TIME` captured before its loop,
not from the dequeued feed's attribute: with a fast feed and a
just-active channel the code's sleep is the positive global constant
while the claimed sleep is `0`. -/
theorem idle_gate_ignores_feed_attribute (g : GlobalConfig) (f : Feed) (elapsed : ℚ)
    (hp : f.config.period.getD g.PERIOD_HOURS_DEFAULT ≤ g.PERIOD_HOURS_MIN)
    (hm : 0 < g.MIN_CHANNEL_IDLE_TIME) (he : elapsed = 0) :
    f.min_channel_idle_time g = 0 ∧
    Bot.idleGateSleep g elapsed = g.MIN_CHANNEL_IDLE_TIME ∧
    Bot.idleGateSleep g elapsed ≠ max 0 (f.min_channel_idle_time g - elapsed) := by
  have hidle : f.min_channel_idle_time g = 0 := by
    rw [Feed.min_channel_idle_time, if_neg (not_lt.mpr hp)]
  have hsleep : Bot.idleGateSleep g elapsed = g.MIN_CHANNEL_IDLE_TIME := by
    rw [Bot.idleGateSleep, he, sub_zero, max_eq_right hm.le]
  refine ⟨hidle, hsleep, ?_⟩
  rw [hsleep, hidle, he, sub_zero, max_self]
  exact hm.ne'

/-- C2 at concrete inputs: period `1/5 = PERIOD_HOURS_MIN`, channel active
`0` seconds ago, global constant `900`. -/
theorem idle_gate_ignores_feed_attribute_witness :
    feedFastW.min_channel_idle_time cfgW = 0 ∧
    Bot.idleGateSleep cfgW 0 = cfgW.MIN_CHANNEL_IDLE_TIME ∧
    Bot.idleGateSleep cfgW 0 ≠ max 0 (feedFastW.min_channel_idle_time cfgW - 0) :=
  idle_gate_ignores_feed_attribute cfgW feedFastW 0 (by norm_num [feedFastW, cfgW, feedW])
    (by norm_num [cfgW]) rfl

/-- C8: a zero-entry URL raises an alert exactly when the effective
`alerts.empty` setting is true (the default when the configuration omits
it), warns otherwise, and never aborts the remaining pending URLs: every
pending URL is read and contributes its outcome and entries. -/
theorem empty_parse_alert_policy :
    (∀ alerts : Option (Option Bool),
      (urlOutcome alerts 0 = .alerted ↔ emptyAlertSetting alerts = true) ∧
      (emptyAlertSetting alerts = false → urlOutcome alerts 0 = .warned)) ∧
    urlOutcome none 0 = .alerted ∧
    (∀ (parse : String → List FeedEntry × List String)
        (alerts : Option (Option Bool)) (pending urls_read : List String) (fuel : Nat),
      (∀ u, (parse u).2 = []) → pending.length ≤ fuel →
      (readEntriesLoop parse alerts fuel pending urls_read).2.1
          = pending.map (fun u => urlOutcome alerts (parse u).1.length) ∧
      (readEntriesLoop parse alerts fuel pending urls_read).1
          = (pending.map fun u => (parse u).1).flatten) := by
  refine ⟨?_, ?_, ?_⟩
  · intro alerts
    constructor
    · cases hset : emptyAlertSetting alerts <;> simp [urlOutcome, hset]
    · intro hset
      simp [urlOutcome, hset]
  · rfl
  · intro parse alerts pending
    induction pending with
    | nil =>
      intro urls_read fuel _ _
      cases fuel <;> simp [readEntriesLoop]
    | cons u rest ih =>
      intro urls_read fuel hnf hfuel
      cases fuel with
      | zero => simp at hfuel
      | succ m =>
        have hm : rest.length ≤ m := by
          simp only [List.length_cons] at hfuel
          omega
        have hrec := ih (osAdd urls_read u) m hnf hm
        simp only [readEntriesLoop, hnf u, List.filter_nil, osUpdate, List.foldl_nil]
        simp only [List.map_cons, List.flatten_cons]
        exact ⟨by rw [hrec.1], by rw [hrec.2]⟩

/-- C8 at concrete inputs: URL `a` parses empty (config omits
`alerts.empty`, so it alerts), URL `b` parses one entry; both are read. -/
theorem empty_parse_alert_policy_witness :
    (readEntriesLoop parseW none 2 ["a", "b"] []).2.1
      = [UrlReadOutcome.alerted, UrlReadOutcome.logged] := by
  have h := (empty_parse_alert_policy.2.2 parseW none ["a", "b"] [] 2
    (fun u => by by_cases hu : u = "a" <;> simp [parseW, hu]) (by simp)).1
  rw [h]
  decide

/-- A key absent from the association list looks up to `none`
(a `KeyError`). -/
lemma lookupAssoc_eq_none {β : Type} (m : List (String × β)) (k : String)
    (h : k ∉ m.map Prod.fst) : lookupAssoc m k = none := by
  rw [lookupAssoc]
  rw [List.find?_eq_none.mpr]
  · rfl
  · intro p hp
    simp only [decide_eq_true_eq]
    intro hk
    exact h (List.mem_map.mpr ⟨p, hp, hk⟩)

/-- A key present in the association list looks up to some value. -/
lemma lookupAssoc_mem {β : Type} (m : List (String × β)) (k : String)
    (h : k ∈ m.map Prod.fst) : ∃ v, lookupAssoc m k = some v := by
  obtain ⟨p, hp, hk⟩ := List.mem_map.mp h
  have hsome : (m.find? fun q => q.1 = k).isSome := by
    rw [List.find?_isSome]
    exact ⟨p, hp, by simp [hk]⟩
  obtain ⟨q, hq⟩ := Option.isSome_iff_exists.mp hsome
  exact ⟨q.2, by rw [lookupAssoc, hq]; rfl⟩

/-- C9 counterexample: with nick `bot` and configured channel `#chan`, a
self-join to the casing variant `#Chan` passes the casefolded membership
check, yet `Bot.CHANNEL_JOIN_EVENTS[channel]` is indexed by the raw
string and raises `KeyError` (modelled as `none`), contradicting the
claim that these lookups succeed for every join that passes the check. -/
theorem handle_join_case_variant_keyerror :
    "bot" = icW.nick ∧
    pyCasefold "#Chan" ∈ icW.channelsCasefold ∧
    handleJoin icW (initialOrchestratorState icW) "bot" "#Chan" 0 = none := by
  refine ⟨rfl, by decide, ?_⟩
  have hguard : ¬ ("bot" ≠ icW.nick ∨ pyCasefold "#Chan" ∉ icW.channelsCasefold) := by
    decide
  rw [handleJoin, if_neg hguard]
  rw [lookupAssoc_eq_none]
  decide

/-- C9 amended: the JOIN handler mutates state only when the user equals
the configured nick exactly and the channel casefolds to a configured
channel; the subsequent raw-string map lookups succeed exactly when the
received channel spelling is itself a key of the join-events map (as
built, a configured channel name); a join whose spelling differs from
every key passes the casefolded check but raises `KeyError`. -/
theorem handle_join_amended (ic : InstanceConfig) (st : OrchestratorState)
    (user channel : String) (now : ℚ)
    (hkeys : st.joinEvents.map Prod.fst = ic.channels) :
    (user ≠ ic.nick ∨ pyCasefold channel ∉ ic.channelsCasefold →
        handleJoin ic st user channel now = some st) ∧
    (user = ic.nick → channel ∈ ic.channels →
        handleJoin ic st user channel now
          = some { joinEvents := setAssoc st.joinEvents channel true,
                   lastTimes := setAssoc st.lastTimes channel now }) ∧
    (user = ic.nick → channel ∉ ic.channels →
        pyCasefold channel ∈ ic.channelsCasefold →
        handleJoin ic st user channel now = none) := by
  refine ⟨?_, ?_, ?_⟩
  · intro hguard
    rw [handleJoin, if_pos hguard]
  · intro hu hch
    have hguard : ¬ (user ≠ ic.nick ∨ pyCasefold channel ∉ ic.channelsCasefold) := by
      push_neg
      exact ⟨hu, List.mem_map.mpr ⟨channel, hch, rfl⟩⟩
    obtain ⟨v, hv⟩ := lookupAssoc_mem st.joinEvents channel (by rw [hkeys]; exact hch)
    rw [handleJoin, if_neg hguard, hv]
  · intro hu hch hcf
    have hguard : ¬ (user ≠ ic.nick ∨ pyCasefold channel ∉ ic.channelsCasefold) := by
      push_neg
      exact ⟨hu, hcf⟩
    have hnone := lookupAssoc_eq_none st.joinEvents channel (by rw [hkeys]; exact hch)
    rw [handleJoin, if_neg hguard, hnone]

/-- C9 amended at concrete inputs: a join with the exact configured
spelling `#chan` sets the join event and the last-message time. -/
theorem handle_join_amended_witness :
    handleJoin icW (initialOrchestratorState icW) "bot" "#chan" 0
      = some { joinEvents := [("#chan", true)], lastTimes := [("#chan", 0)] } := by
  have h := (handle_join_amended icW (initialOrchestratorState icW) "bot" "#chan" 0
    (by decide)).2.1 rfl (by decide)
  rw [h]
  decide

/-- In a gap chain, the head precedes every later element by at least the
gap. -/
lemma gapChain_head_le (spm : ℚ) (h0 : 0 ≤ spm) :
    ∀ (l : List ℚ) (a : ℚ), GapChain spm (a :: l) → ∀ x ∈ l, a + spm ≤ x := by
  intro l
  induction l with
  | nil => intro a _ x hx; simp at hx
  | cons b l ih =>
    intro a h x hx
    obtain ⟨hab, hbl⟩ := List.chain'_cons.mp h
    rcases List.mem_cons.mp hx with rfl | hx'
    · exact hab
    · have hb := ih b hbl x hx'
      linarith

/-- A list whose consecutive elements are at least `spm` apart has at most
one element in any window of length `spm`. -/
lemma gapChain_window (spm : ℚ) (hpos : 0 < spm) :
    ∀ l : List ℚ, GapChain spm l → ∀ t, windowCount l t spm ≤ 1 := by
  intro l
  induction l with
  | nil => intro _ t; simp [windowCount]
  | cons a l ih =>
    intro h t
    rw [windowCount, List.countP_cons]
    by_cases hin : t ≤ a ∧ a < t + spm
    · have hzero : l.countP (fun s => decide (t ≤ s ∧ s < t + spm)) = 0 := by
        rw [List.countP_eq_zero]
        intro x hx
        have hax := gapChain_head_le spm hpos.le l a h x hx
        simp only [decide_eq_true_eq, not_and, not_lt]
        intro _
        linarith [hin.1]
      rw [hzero]
      simp [hin]
    · have := ih h.tail t
      rw [windowCount] at this
      simpa [hin] using this

/-- The flattened send times of a paced, lock-serialized batch list form a
gap chain, and stay at or after any lower bound on the first
acquisition. -/
lemma batches_flatten_gapChain (spm : ℚ) :
    ∀ (bs : List Batch) (lb : ℚ),
      (∀ b ∈ bs, b.paced spm) →
      List.Chain' (fun a c => a.release ≤ c.acquire) bs →
      (∀ b, bs.head? = some b → lb ≤ b.acquire) →
      GapChain spm (bs.map Batch.sendTimes).flatten ∧
      ∀ s ∈ (bs.map Batch.sendTimes).flatten, lb ≤ s := by
  intro bs
  induction bs with
  | nil =>
    intro lb _ _ _
    constructor
    · simp [GapChain]
    · simp
  | cons b rest ih =>
    intro lb hpaced hchain hlb
    obtain ⟨hgap, hacq, hrel, har⟩ := hpaced b (by simp)
    have hpe : ∀ c ∈ rest, c.paced spm := fun c hc => hpaced c (by simp [hc])
    have hheadrest : ∀ c, rest.head? = some c → b.release ≤ c.acquire :=
      fun c hc => (List.chain'_cons'.mp hchain).1 c hc
    have hrec := ih b.release hpe hchain.tail hheadrest
    have hlbacq : lb ≤ b.acquire := hlb b rfl
    constructor
    · simp only [List.map_cons, List.flatten_cons]
      rw [GapChain, List.chain'_append]
      refine ⟨hgap, hrec.1, ?_⟩
      intro x hx y hy
      have hxr : x + spm ≤ b.release := hrel x hx
      have hyr : b.release ≤ y := hrec.2 y (List.mem_of_mem_head? hy)
      linarith
    · intro s hs
      simp only [List.map_cons, List.flatten_cons, List.mem_append] at hs
      rcases hs with h1 | h2
      · exact le_trans hlbacq (hacq s h1)
      · exact le_trans (le_trans hlbacq har) (hrec.2 s h2)

/-- C4 amended: restricted to the entry-posting messages (the `irc.msg`
calls of the `for entry in feed.postable_entries` loop), every
well-formed trace — the global send token serializing batches, each send
within a batch padded to `SECONDS_PER_MESSAGE`, the lock released no
earlier than the final padding sleep — has at most one send in any
window `[t, t + SECONDS_PER_MESSAGE)`, for every interleaving of channel
posters. -/
theorem posting_rate_limit (spm : ℚ) (tr : Trace) (hpos : 0 < spm)
    (hwf : tr.wf spm) : ∀ t, windowCount tr.postSends t spm ≤ 1 := by
  intro t
  obtain ⟨hp, hc⟩ := hwf
  rw [Trace.postSends]
  cases hb : tr.batches with
  | nil => simp [windowCount]
  | cons b rest =>
    rw [hb] at hp hc
    have h := batches_flatten_gapChain spm (b :: rest) b.acquire hp hc ?head
    · exact gapChain_window spm hpos _ h.1 t
    case head =>
      intro c hch
      cases hch
      exact le_refl _

/-- The concrete trace `exTrace` is well-formed for
`SECONDS_PER_MESSAGE = 1`. -/
lemma exTrace_wf : exTrace.wf 1 := by
  constructor
  · intro b hb
    simp only [exTrace, List.mem_singleton] at hb
    subst hb
    refine ⟨?_, ?_, ?_, ?_⟩
    · simp [GapChain]
    · intro s hs
      simp only [List.mem_singleton] at hs
      subst hs
      norm_num
    · intro s hs
      simp only [List.getLast?_singleton, Option.some.injEq] at hs
      subst hs
      norm_num
    · norm_num
  · simp [exTrace]

/-- C4 counterexample: a well-formed trace (one paced, lock-held batch
sending at time `0`) in which an alert message — `_alert` calls `irc.msg`
without the lock — goes out at time `1/2`, so the whole process sends two
outbound chat messages in the window `[0, 1)` with
`SECONDS_PER_MESSAGE = 1`. -/
theorem global_rate_limit_process_wide_fails :
    exTrace.wf 1 ∧ windowCount exTrace.allSends 0 1 = 2 := by
  refine ⟨exTrace_wf, ?_⟩
  norm_num [windowCount, Trace.allSends, Trace.postSends, exTrace,
    List.countP_cons]

/-- C4 amended at a concrete trace. -/
theorem posting_rate_limit_witness :
    windowCount exTrace.postSends 0 1 ≤ 1 :=
  posting_rate_limit 1 exTrace one_pos exTrace_wf 0
